import Mathlib

/-!
Verification of umituz/react-native-image against its natural-language
specification.  The TypeScript sources are embedded shallowly: JS numbers
become `ℚ` (or `ℕ`/`ℤ` where the source only ever holds integers), JS arrays
become `List`, fallible operations (`throw`) become `Except`, and the random
id / timestamp generation of the editor service is passed in as explicit
parameters.  `Uint8ClampedArray` element assignment is modelled by
`toClampedByte` (clamp to [0,255], round to nearest, ties to even, per the
ECMAScript `ToUint8Clamp` conversion).
-/

namespace RNImage

/-- JS `Math.round`: round half toward positive infinity. -/
def jsRound (x : ℚ) : ℤ := ⌊x + 1 / 2⌋

/-- Round to the nearest integer, ties to even (ECMAScript `ToUint8Clamp`
tie-breaking). -/
def roundHalfEven (x : ℚ) : ℤ :=
  if x - ⌊x⌋ < 1 / 2 then ⌊x⌋
  else if x - ⌊x⌋ > 1 / 2 then ⌊x⌋ + 1
  else if ⌊x⌋ % 2 = 0 then ⌊x⌋ else ⌊x⌋ + 1

/-- The `Uint8ClampedArray` element store: clamp to `[0,255]` then round to the
nearest integer, ties to even. -/
def toClampedByte (x : ℚ) : ℕ :=
  (roundHalfEven (min 255 (max 0 x))).toNat

/-- The last `n` elements of a list (the suffix kept by a bounded ring). -/
def lastN (n : ℕ) (l : List α) : List α := l.drop (l.length - n)

/-- Map a function over a list together with the element index (the running
byte index `i` of the filter loops), starting from `i`. -/
def mapWithIndex (f : ℕ → α → β) : ℕ → List α → List β
  | _, [] => []
  | i, x :: xs => f i x :: mapWithIndex f (i + 1) xs

/-! ## Error taxonomy (src/unnamed/part_013, ImageErrorHandler) -/

/-- Embeds `IMAGE_ERROR_CODES` from the error handler module. -/
inductive ImageErrorCode where
  | INVALID_URI
  | INVALID_DIMENSIONS
  | INVALID_QUALITY
  | MANIPULATION_FAILED
  | CONVERSION_FAILED
  | STORAGE_FAILED
  | VALIDATION_ERROR
deriving DecidableEq

/-- Embeds `ImageError`: `{message, code, operation?}`. -/
structure ImageError where
  message : String
  code : ImageErrorCode
  operation : Option String
deriving DecidableEq

/-- Embeds `ImageErrorHandler.createError`. -/
def createError (message : String) (code : ImageErrorCode)
    (operation : Option String) : ImageError :=
  ⟨message, code, operation⟩

/-- A thrown value that aborts an editor operation: either an `ImageError`
thrown by the service itself, or a JS runtime fault (e.g. reading `.id` of
`undefined`). -/
inductive OpError where
  | imageError (e : ImageError)
  | jsFault (message : String)
deriving DecidableEq

/-! ## Editor data model (src/unnamed/part_011, EditorTypes) -/

/-- The `EditorTool` enum. -/
inductive EditorTool where
  | MOVE | BRUSH | ERASER | TEXT | SHAPE | CROP | FILTER | STICKER | SELECT
deriving DecidableEq

/-- Payload of a drawn element (`{type, data}` union).  None of the embedded
operations ever inspects an element, so the payload is modelled as an
uninterpreted value. -/
abbrev ElemData := ℕ

/-- Embeds `EditorLayer`: `{id, name, visible, opacity, locked, elements}`. -/
structure EditorLayer where
  id : String
  name : String
  visible : Bool
  opacity : ℚ
  locked : Bool
  elements : List ElemData
deriving DecidableEq

/-- An `EditorHistory` entry: `{id, timestamp, layers}` (the layer snapshot).
The optional `thumbnail` field is never set or read by the embedded
operations and is omitted. -/
structure EditorHistory where
  id : String
  timestamp : ℕ
  layers : List EditorLayer
deriving DecidableEq

/-- A 2D point (`EditorPoint`). -/
structure EditorPoint where
  x : ℚ
  y : ℚ
deriving DecidableEq

/-- Image dimensions (`{width, height}`). -/
structure EditorDimensions where
  width : ℚ
  height : ℚ
deriving DecidableEq

/-- Embeds `EditorState`.  The optional `selection`, `cropArea` and `activeFilter`
fields are carried unchanged (via object spread) by every operation embedded
here and are omitted. -/
structure EditorState where
  originalUri : String
  currentUri : Option String
  tool : EditorTool
  selectedLayer : Option String
  layers : List EditorLayer
  history : List EditorHistory
  historyIndex : ℕ
  isDirty : Bool
  dimensions : EditorDimensions
  zoom : ℚ
  pan : EditorPoint
deriving DecidableEq

/-! ## Editor service (src/src/infrastructure/services/ImageEditorService.ts)

`generateId()` (random) and `new Date()` are modelled as explicit `id` and
`ts` parameters of each operation. -/

/-- Embeds `ImageEditorService.createInitialState`. -/
def createInitialState (uri : String) (dimensions : EditorDimensions)
    (histId : String) (ts : ℕ) : EditorState :=
  let defaultLayer : EditorLayer :=
    { id := "background", name := "Background", visible := true,
      opacity := 1, locked := true, elements := [] }
  { originalUri := uri
    currentUri := none
    tool := EditorTool.MOVE
    selectedLayer := none
    layers := [defaultLayer]
    history := [{ id := histId, timestamp := ts, layers := [defaultLayer] }]
    historyIndex := 0
    isDirty := false
    dimensions := dimensions
    zoom := 1
    pan := ⟨0, 0⟩ }

/-- Embeds `ImageEditorService.addToHistory`: truncate past the cursor, append the
new entry, shift off the oldest entry once the cap is exceeded, and point the
cursor at the last entry. -/
def addToHistory (state : EditorState) (newHistory : EditorHistory)
    (maxHistory : ℕ) : EditorState :=
  let newHistoryArray := state.history.take (state.historyIndex + 1) ++ [newHistory]
  let trimmed := if newHistoryArray.length > maxHistory
    then newHistoryArray.drop 1 else newHistoryArray
  { state with history := trimmed, historyIndex := trimmed.length - 1 }

/-- JS `name || default` for an optional string parameter (the empty string
is falsy). -/
def strOrElse (s : Option String) (d : String) : String :=
  match s with
  | some v => if v = "" then d else v
  | none => d

/-- Embeds `ImageEditorService.addLayer`. -/
def addLayer (state : EditorState) (name : Option String)
    (layerId histId : String) (ts : ℕ) : EditorState :=
  let newLayer : EditorLayer :=
    { id := layerId
      name := strOrElse name ("Layer " ++ toString state.layers.length)
      visible := true, opacity := 1, locked := false, elements := [] }
  let newHistory : EditorHistory :=
    { id := histId, timestamp := ts, layers := state.layers ++ [newLayer] }
  let newHistoryState := addToHistory state newHistory 50
  { newHistoryState with
      layers := state.layers ++ [newLayer]
      selectedLayer := some newLayer.id
      isDirty := true }

/-- Embeds `ImageEditorService.removeLayer`.  Throws a `VALIDATION_ERROR` when only
one layer remains; otherwise commits the filtered layer list.  The source
reads `newLayers[0].id`, which faults at runtime if the filter removed every
layer (all ids equal); that path is modelled as a `jsFault`. -/
def removeLayer (state : EditorState) (layerId : String)
    (histId : String) (ts : ℕ) : Except OpError EditorState :=
  if state.layers.length ≤ 1 then
    .error (.imageError (createError "Cannot remove the last layer"
      .VALIDATION_ERROR (some "removeLayer")))
  else
    let newLayers := state.layers.filter (fun layer => layer.id ≠ layerId)
    let newHistory : EditorHistory :=
      { id := histId, timestamp := ts, layers := newLayers }
    match newLayers.head? with
    | none => .error (.jsFault "cannot read id of undefined")
    | some first =>
      let newHistoryState := addToHistory state newHistory 50
      .ok { newHistoryState with
              layers := newLayers
              selectedLayer := some first.id
              isDirty := true }

/-- A partial layer update (`Partial<EditorLayer>`). -/
structure LayerPatch where
  id : Option String
  name : Option String
  visible : Option Bool
  opacity : Option ℚ
  locked : Option Bool
  elements : Option (List ElemData)

/-- JS spread `{...layer, ...updates}`. -/
def mergeLayer (layer : EditorLayer) (u : LayerPatch) : EditorLayer :=
  { id := u.id.getD layer.id
    name := u.name.getD layer.name
    visible := u.visible.getD layer.visible
    opacity := u.opacity.getD layer.opacity
    locked := u.locked.getD layer.locked
    elements := u.elements.getD layer.elements }

/-- Embeds `ImageEditorService.updateLayer`. -/
def updateLayer (state : EditorState) (layerId : String) (updates : LayerPatch)
    (histId : String) (ts : ℕ) : EditorState :=
  let newLayers := state.layers.map (fun layer =>
    if layer.id = layerId then mergeLayer layer updates else layer)
  let newHistory : EditorHistory :=
    { id := histId, timestamp := ts, layers := newLayers }
  let newHistoryState := addToHistory state newHistory 50
  { newHistoryState with layers := newLayers, isDirty := true }

/-- Embeds `ImageEditorService.addElementToLayer`. -/
def addElementToLayer (state : EditorState) (layerId : String)
    (element : ElemData) (histId : String) (ts : ℕ) :
    Except OpError EditorState :=
  match state.layers.find? (fun layer => layer.id = layerId) with
  | none => .error (.imageError (createError "Layer not found"
      .VALIDATION_ERROR (some "addElementToLayer")))
  | some targetLayer =>
    if targetLayer.locked then
      .error (.imageError (createError "Cannot add element to locked layer"
        .VALIDATION_ERROR (some "addElementToLayer")))
    else
      let newLayers := state.layers.map (fun layer =>
        if layer.id = layerId
          then { layer with elements := layer.elements ++ [element] }
          else layer)
      let newHistory : EditorHistory :=
        { id := histId, timestamp := ts, layers := newLayers }
      let newHistoryState := addToHistory state newHistory 50
      .ok { newHistoryState with layers := newLayers, isDirty := true }

/-- Embeds `ImageEditorService.undo`.  When the cursor is positive the source reads
`history[historyIndex - 1]`, which exists for every state this service
produces; on an ill-formed state the read would fault, modelled by returning
the state unchanged (that branch is unreachable from reachable states). -/
def undo (state : EditorState) : EditorState :=
  if state.historyIndex = 0 then state
  else
    let newIndex := state.historyIndex - 1
    match state.history[newIndex]? with
    | none => state
    | some historyState =>
      { state with layers := historyState.layers, historyIndex := newIndex,
                   isDirty := true }

/-- Embeds `ImageEditorService.redo` (same indexing remark as `undo`). -/
def redo (state : EditorState) : EditorState :=
  if state.historyIndex ≥ state.history.length - 1 then state
  else
    let newIndex := state.historyIndex + 1
    match state.history[newIndex]? with
    | none => state
    | some historyState =>
      { state with layers := historyState.layers, historyIndex := newIndex,
                   isDirty := true }

/-- Embeds `ImageEditorService.canUndo`. -/
def canUndo (state : EditorState) : Bool := state.historyIndex > 0

/-- Embeds `ImageEditorService.canRedo`. -/
def canRedo (state : EditorState) : Bool :=
  state.historyIndex < state.history.length - 1

/-! ## Well-formedness and reachability of editor states -/

/-- The editor-state invariant: a valid cursor, the 50-entry cap, and the
spec's `layers = history[historyIndex].snapshot`. -/
def WellFormed (s : EditorState) : Prop :=
  s.historyIndex < s.history.length ∧
  s.history.length ≤ 50 ∧
  (s.history[s.historyIndex]?).map EditorHistory.layers = some s.layers

instance (s : EditorState) : Decidable (WellFormed s) := by
  unfold WellFormed; infer_instance

/-- States reachable from `createInitialState` by the editor operations
(`addLayer`, `removeLayer`, `updateLayer`, `addElementToLayer`, `undo`,
`redo`); a throwing operation produces no state. -/
inductive Reachable : EditorState → Prop where
  | init (uri : String) (dims : EditorDimensions) (histId : String) (ts : ℕ) :
      Reachable (createInitialState uri dims histId ts)
  | add {s} (h : Reachable s) (name : Option String) (layerId histId : String)
      (ts : ℕ) : Reachable (addLayer s name layerId histId ts)
  | remove {s t} (h : Reachable s) (layerId histId : String) (ts : ℕ)
      (hok : removeLayer s layerId histId ts = .ok t) : Reachable t
  | update {s} (h : Reachable s) (layerId : String) (u : LayerPatch)
      (histId : String) (ts : ℕ) : Reachable (updateLayer s layerId u histId ts)
  | addElem {s t} (h : Reachable s) (layerId : String) (e : ElemData)
      (histId : String) (ts : ℕ)
      (hok : addElementToLayer s layerId e histId ts = .ok t) : Reachable t
  | undoStep {s} (h : Reachable s) : Reachable (undo s)
  | redoStep {s} (h : Reachable s) : Reachable (redo s)

/-! ## Sequences of mutating editor operations -/

/-- One mutating editor operation together with the ids and timestamp its
run would generate (`addLayer`, `removeLayer`, `updateLayer`,
`addElementToLayer`; `undo`/`redo` do not commit history entries). -/
inductive Mutation where
  | addL (name : Option String) (layerId histId : String) (ts : ℕ)
  | removeL (layerId histId : String) (ts : ℕ)
  | updateL (layerId : String) (u : LayerPatch) (histId : String) (ts : ℕ)
  | addEl (layerId : String) (e : ElemData) (histId : String) (ts : ℕ)

/-- The id of the history entry a successful run of the mutation commits. -/
def Mutation.histId : Mutation → String
  | .addL _ _ histId _ => histId
  | .removeL _ histId _ => histId
  | .updateL _ _ histId _ => histId
  | .addEl _ _ histId _ => histId

/-- The timestamp of the history entry the mutation commits. -/
def Mutation.ts : Mutation → ℕ
  | .addL _ _ _ ts => ts
  | .removeL _ _ ts => ts
  | .updateL _ _ _ ts => ts
  | .addEl _ _ _ ts => ts

/-- Run one mutating operation. -/
def applyMutation (s : EditorState) : Mutation → Except OpError EditorState
  | .addL name layerId histId ts => .ok (addLayer s name layerId histId ts)
  | .removeL layerId histId ts => removeLayer s layerId histId ts
  | .updateL layerId u histId ts => .ok (updateLayer s layerId u histId ts)
  | .addEl layerId e histId ts => addElementToLayer s layerId e histId ts

/-- Run a sequence of mutating operations; a thrown error aborts the run. -/
def runMutations (s : EditorState) (ms : List Mutation) :
    Except OpError EditorState :=
  ms.foldlM applyMutation s

/-- The part of the history kept in front of a newly committed entry: the
entries up to the cursor, with the oldest dropped when the new entry would
overflow the 50-entry cap. -/
def committedBase (s : EditorState) : List EditorHistory :=
  let base := s.history.take (s.historyIndex + 1)
  if base.length + 1 > 50 then base.drop 1 else base

/-! ## Dimension utilities (src/src/domain/utils/ImageUtils.ts) -/

/-- Embeds `ImageUtils.getAspectRatio`: `width / height`. -/
def getAspectRatio (width height : ℚ) : ℚ := width / height

/-- Embeds `ImageUtils.fitToSize`: width-first fit-to-box, both results passed
through `Math.round`.  The two reassignments of the source's mutable
`newWidth`/`newHeight` are modelled as a pair. -/
def fitToSize (width height maxWidth maxHeight : ℚ) : ℤ × ℤ :=
  let aspectRatio := getAspectRatio width height
  let newWidth1 : ℚ := if width > maxWidth then maxWidth else width
  let newHeight1 : ℚ :=
    if width > maxWidth then newWidth1 / aspectRatio else height
  let newWidth2 : ℚ :=
    if newHeight1 > maxHeight then maxHeight * aspectRatio else newWidth1
  let newHeight2 : ℚ := if newHeight1 > maxHeight then maxHeight else newHeight1
  (jsRound newWidth2, jsRound newHeight2)

/-- Modelled from the spec (section 4.3 fit-to-box): given `(w,h,maxW,maxH)`,
compute `aspect = w/h`; if `w > maxW`, set `w = maxW, h = w/aspect`; then if
`h > maxH` (the possibly-updated `h`), set `h = maxH, w = h*aspect`; round
both to nearest integer.  Used only to compare with the source's
`fitToSize`. -/
def fitToSizeSpec (w h maxW maxH : ℚ) : ℤ × ℤ :=
  let aspect := w / h
  let w1 := if w > maxW then maxW else w
  let h1 := if w > maxW then w1 / aspect else h
  let w2 := if h1 > maxH then maxH * aspect else w1
  let h2 := if h1 > maxH then maxH else h1
  (jsRound w2, jsRound h2)

/-- The dimensions `ImageTransformService.resizeToFit` (src/unnamed/part_023)
and `ImageAdvancedTransformService.resizeToFit` (src/unnamed/part_019) pass
to `resize`: both call `ImageUtils.fitToSize(maxWidth, maxHeight, maxWidth,
maxHeight)` — the bounds themselves, not the dimensions of the image being
resized. -/
def resizeToFitDims (maxWidth maxHeight : ℚ) : ℤ × ℤ :=
  fitToSize maxWidth maxHeight maxWidth maxHeight

/-! ## Filter pipeline (src/src/infrastructure/utils/FilterProcessor.ts) -/

/-- Embeds `FilterProcessor.applyContrast`.  The source computes
`factor = (259 * (contrast * 255 + 255)) / (255 * (259 - contrast * 255))`
(note `contrast * 255`, not `contrast * 2.55`) and stores
`min(255, max(0, factor * (v - 128) + 128))` into a `Uint8ClampedArray` for
every channel of every pixel except alpha (byte index `i % 4 = 3`).
JS division by zero (at `contrast = 259/255`) is modelled by `ℚ`'s `x/0 = 0`.
-/
def applyContrast (data : List ℕ) (contrast : ℚ) : List ℕ :=
  let factor := (259 * (contrast * 255 + 255)) / (255 * (259 - contrast * 255))
  mapWithIndex (fun i v =>
    if i % 4 = 3 then v
    else toClampedByte (factor * ((v : ℚ) - 128) + 128)) 0 data

/-- Modelled from the claim (C7 / spec section 4.6 contrast formula):
`factor = 259*(contrast*2.55+255) / (255*(259-contrast*2.55))`;
`channel := clamp(factor*(channel-128)+128, 0, 255)`.  Used only to compare
with the source's `applyContrast`. -/
def contrastSpecChannel (contrast v : ℚ) : ℚ :=
  let factor :=
    (259 * (contrast * (51 / 20) + 255)) / (255 * (259 - contrast * (51 / 20)))
  min 255 (max 0 (factor * (v - 128) + 128))

/-- The list of window offsets `[-size, ..., size]` scanned by the blur
loops (empty when `size < 0`, in which case the JS loop body never runs). -/
def offsetRange (size : ℤ) : List ℤ :=
  (List.range (2 * size + 1).toNat).map (fun k => (k : ℤ) - size)

/-- The in-bounds neighbor coordinates of pixel `(x, y)` scanned by the blur
window of half-width `size` on a `wdt × hgt` image: out-of-bounds neighbors
are excluded from both the sum and the count. -/
def blurNeighbors (wdt hgt size : ℤ) (x y : ℤ) : List (ℤ × ℤ) :=
  ((offsetRange size).flatMap (fun dy =>
    (offsetRange size).map (fun dx => (x + dx, y + dy)))).filter
    (fun p => 0 ≤ p.2 ∧ p.2 < hgt ∧ 0 ≤ p.1 ∧ p.1 < wdt)

/-- Shared body of the box-blur loops: for each byte of each pixel inside the
`wdt × hgt` grid, store the window average `sum / count` of that channel over
the in-bounds neighbors (a `Uint8ClampedArray` store; JS's `0/0 = NaN → 0`
coincides with `ℚ`'s `0/0 = 0`).  Bytes beyond the grid keep their copied
value. -/
def boxBlurCore (wdt hgt size : ℤ) (data : List ℕ) : List ℕ :=
  mapWithIndex (fun j v =>
    let p := j / 4
    let c := j % 4
    if (p : ℤ) < wdt * hgt then
      let x : ℤ := (p : ℤ) % wdt
      let y : ℤ := (p : ℤ) / wdt
      let ns := blurNeighbors wdt hgt size x y
      let s : ℕ := (ns.map (fun q =>
        data.getD ((q.2 * wdt + q.1) * 4 + (c : ℤ)).toNat 0)).sum
      toClampedByte ((s : ℚ) / (ns.length : ℚ))
    else v) 0 data

/-- Embeds `FilterProcessor.applyBlur`.  The source derives
`width = Math.sqrt(data.length / 4)` and `height = width` (it assumes a
square image), and `size = Math.floor(radius) || 1`.  The embedding covers
the buffers on which the source's float arithmetic is exact: those whose
pixel count `data.length / 4` is a perfect square (on other buffers the
source indexes with non-integers and propagates NaN). -/
def applyBlur (data : List ℕ) (radius : ℚ) : List ℕ :=
  let width : ℤ := (Nat.sqrt (data.length / 4) : ℤ)
  let height : ℤ := width
  let size : ℤ := if ⌊radius⌋ = 0 then 1 else ⌊radius⌋
  boxBlurCore width height size data

/-- Modelled from the claim (C8 / spec section 4.6 box blur): on a
row-major RGBA buffer of the given `width × height`, use effective radius
`max ⌊radius⌋ 1` and set each channel to the unweighted mean over in-bounds
window neighbors (stored as a byte).  Used only to compare with the source's
`applyBlur`. -/
def blurSpec (width height : ℕ) (data : List ℕ) (radius : ℚ) : List ℕ :=
  boxBlurCore (width : ℤ) (height : ℤ) (max ⌊radius⌋ 1) data

/-! ## Validation (src/src/infrastructure/utils/ImageValidator.ts) -/

/-- JS `String.prototype.startsWith`, evaluated on the underlying character
list. -/
def jsStartsWith (s p : String) : Bool := p.data.isPrefixOf s.data

/-- Embeds `ValidationResult`. -/
structure ValidationResult where
  isValid : Bool
  error : Option String
deriving DecidableEq

/-- Embeds `ImageValidator.validateUri` (the `!uri` guard rejects exactly the empty
string for a `string`-typed argument). -/
def validateUri (uri : String) : ValidationResult :=
  if uri = "" then
    ⟨false, some "URI is required and must be a string"⟩
  else if !(jsStartsWith uri "file://" || jsStartsWith uri "content://" ||
      jsStartsWith uri "http://" || jsStartsWith uri "https://" ||
      jsStartsWith uri "data:image/") then
    ⟨false, some "Invalid URI format"⟩
  else ⟨true, none⟩

/-! ## Batch service (src/unnamed/part_018, ImageBatchService) -/

/-- The `BatchOperation.type` union. -/
inductive BatchOpType where
  | resize | crop | filter | compress | convert
deriving DecidableEq

/-- The string form of an operation type (for the template literal in the
unknown-type error message). -/
def BatchOpType.str : BatchOpType → String
  | .resize => "resize"
  | .crop => "crop"
  | .filter => "filter"
  | .compress => "compress"
  | .convert => "convert"

/-- Embeds `BatchOperation`: `{uri, type, params, options}`.  The `params` and
`options` payloads are duck-typed (`any`) and only ever forwarded to the
delegated services, so they are modelled as uninterpreted values. -/
structure BatchOperation where
  uri : String
  type : BatchOpType
  params : ℕ
  options : Option ℕ
deriving DecidableEq

/-- Embeds `ImageManipulationResult`: `{uri, width, height, base64?}`. -/
structure ImageManipulationResult where
  uri : String
  width : ℚ
  height : ℚ
  base64 : Option String
deriving DecidableEq

/-- The outcome of the delegated native service call for one operation
(`ImageTransformService.resize/crop`, `ImageConversionService.compress/
convertFormat`): these are external collaborators, so the batch service is
verified for every possible outcome function. -/
abbrev BatchEnv := BatchOperation → Except ImageError ImageManipulationResult

/-- The error built by the `default` branch of the dispatch `switch`. -/
def unknownTypeError (t : BatchOpType) : ImageError :=
  createError ("Unknown operation type: " ++ t.str) .VALIDATION_ERROR
    (some "batchProcess")

/-- Embeds `ImageBatchService.processBatchItem`: validate the URI, dispatch on the
operation type (`resize`, `crop`, `compress`, `convert` delegate to the
services; any other type — `filter` among them — hits the `default` branch),
and catch every thrown error into a per-item failure record. -/
def processBatchItem (env : BatchEnv) (op : BatchOperation) :
    Except ImageError ImageManipulationResult :=
  if (validateUri op.uri).isValid = false then
    .error (createError ((validateUri op.uri).error.getD "") .INVALID_URI
      (some "batchProcess"))
  else
    match op.type with
    | .resize => env op
    | .crop => env op
    | .compress => env op
    | .convert => env op
    | .filter => .error (unknownTypeError .filter)

/-- Embeds `BatchProcessingResult`. -/
structure BatchProcessingResult where
  successful : List (String × ImageManipulationResult)
  failed : List (String × ImageError)
  totalProcessed : ℕ
  successCount : ℕ
  failureCount : ℕ
deriving DecidableEq

/-- The chunking loop `for (let i = 0; i < operations.length; i += concurrency)`
with `chunk = operations.slice(i, i + concurrency)`.  (The loop does not
terminate for `concurrency ≤ 0`; the service guards this with
`options.concurrency || 3`, so only positive chunk sizes occur.) -/
def chunked : ℕ → List α → List (List α)
  | _, [] => []
  | 0, _ :: _ => []
  | c + 1, x :: xs =>
    (x :: xs).take (c + 1) :: chunked (c + 1) ((x :: xs).drop (c + 1))
termination_by _ l => l.length
decreasing_by
  simp only [List.length_drop, List.length_cons]
  omega

/-- Embeds `ImageBatchService.processBatch`: chunk by concurrency (default 3 via
`options.concurrency || 3`), settle every item of a chunk (`Promise.all` of
`processBatchItem`, which never rejects), then partition the settled results
in order into `successful` and `failed`.  The `onProgress`/`onError`
callbacks are side effects and are not modelled. -/
def processBatch (env : BatchEnv) (operations : List BatchOperation)
    (concurrency : ℕ) : BatchProcessingResult :=
  let c := if concurrency = 0 then 3 else concurrency
  let itemResults := ((chunked c operations).map (fun chunk =>
    chunk.map (fun op => (op.uri, processBatchItem env op)))).flatten
  let successful := itemResults.filterMap (fun r =>
    match r.2 with | .ok v => some (r.1, v) | .error _ => none)
  let failed := itemResults.filterMap (fun r =>
    match r.2 with | .error e => some (r.1, e) | .ok _ => none)
  { successful := successful
    failed := failed
    totalProcessed := operations.length
    successCount := successful.length
    failureCount := failed.length }

/-! ## Lemmas: the history commit protocol -/

lemma addToHistory_history (s : EditorState) (e : EditorHistory) :
    (addToHistory s e 50).history = committedBase s ++ [e] := by
  unfold addToHistory committedBase
  by_cases hc : 50 < (s.history.take (s.historyIndex + 1)).length + 1
  · have hb : 1 ≤ (s.history.take (s.historyIndex + 1)).length := by omega
    simp only [List.length_append, List.length_cons, List.length_nil]
    rw [if_pos (by omega), if_pos (by simpa using hc)]
    exact List.drop_append_of_le_length hb
  · simp only [List.length_append, List.length_cons, List.length_nil]
    rw [if_neg (by omega), if_neg (by simpa using hc)]

lemma addToHistory_historyIndex (s : EditorState) (e : EditorHistory) :
    (addToHistory s e 50).historyIndex = (committedBase s).length := by
  unfold addToHistory committedBase
  by_cases hc : 50 < (s.history.take (s.historyIndex + 1)).length + 1
  · simp only [List.length_append, List.length_cons, List.length_nil]
    rw [if_pos (by omega), if_pos (by simpa using hc)]
    simp only [List.length_drop, List.length_append, List.length_cons,
      List.length_nil]
    omega
  · simp only [List.length_append, List.length_cons, List.length_nil]
    rw [if_neg (by omega), if_neg (by simpa using hc)]
    simp

lemma addToHistory_layers (s : EditorState) (e : EditorHistory) :
    (addToHistory s e 50).layers = s.layers := rfl

lemma committedBase_length (s : EditorState)
    (h : s.historyIndex < s.history.length) :
    (committedBase s).length =
      if 50 < s.historyIndex + 2 then s.historyIndex else s.historyIndex + 1 := by
  unfold committedBase
  have hb : (s.history.take (s.historyIndex + 1)).length = s.historyIndex + 1 := by
    simp only [List.length_take]; omega
  by_cases hc : 50 < s.historyIndex + 2
  · rw [if_pos (by omega), if_pos hc]
    simp only [List.length_drop, hb]
    omega
  · rw [if_neg (by omega), if_neg hc, hb]

lemma committedBase_length_le (s : EditorState)
    (h : s.historyIndex < s.history.length) (h50 : s.history.length ≤ 50) :
    (committedBase s).length ≤ 49 := by
  rw [committedBase_length s h]
  split <;> omega

lemma committedBase_pos (s : EditorState)
    (h : s.historyIndex < s.history.length) :
    0 < (committedBase s).length := by
  rw [committedBase_length s h]
  split <;> omega

lemma committedBase_last (s : EditorState)
    (h : s.historyIndex < s.history.length) :
    (committedBase s)[(committedBase s).length - 1]? =
      s.history[s.historyIndex]? := by
  unfold committedBase
  have hb : (s.history.take (s.historyIndex + 1)).length = s.historyIndex + 1 := by
    simp only [List.length_take]; omega
  by_cases hc : 50 < s.historyIndex + 2
  · rw [if_pos (by omega)]
    have h49 : 49 ≤ s.historyIndex := by omega
    simp only [List.length_drop, hb, List.getElem?_drop, List.getElem?_take]
    rw [if_pos (by omega)]
    congr 1
    omega
  · rw [if_neg (by omega)]
    simp only [hb, List.getElem?_take]
    rw [if_pos (by omega)]
    congr 1

/-- Every successful mutating operation produces a state whose history is
`committedBase s` followed by one fresh entry carrying the operation's id,
timestamp and new layer list, with the cursor on that entry and `layers`
equal to the committed snapshot. -/
lemma applyMutation_ok_shape (s : EditorState) (m : Mutation) (t : EditorState)
    (hok : applyMutation s m = .ok t) :
    ∃ L : List EditorLayer,
      t.history = committedBase s ++ [⟨m.histId, m.ts, L⟩] ∧
      t.historyIndex = (committedBase s).length ∧
      t.layers = L := by
  cases m with
  | addL name layerId histId ts =>
    simp only [applyMutation, Except.ok.injEq] at hok
    subst hok
    refine ⟨_, ?_, ?_, rfl⟩
    · simpa [addLayer] using addToHistory_history s _
    · simpa [addLayer] using addToHistory_historyIndex s _
  | removeL layerId histId ts =>
    simp only [applyMutation, removeLayer] at hok
    by_cases hlen : s.layers.length ≤ 1
    · rw [if_pos hlen] at hok; cases hok
    · rw [if_neg hlen] at hok
      rcases hhead : (s.layers.filter (fun layer => layer.id ≠ layerId)).head? with
        _ | first
      · rw [hhead] at hok; cases hok
      · rw [hhead] at hok
        simp only [Except.ok.injEq] at hok
        subst hok
        refine ⟨_, ?_, ?_, rfl⟩
        · simpa using addToHistory_history s _
        · simpa using addToHistory_historyIndex s _
  | updateL layerId u histId ts =>
    simp only [applyMutation, Except.ok.injEq] at hok
    subst hok
    refine ⟨_, ?_, ?_, rfl⟩
    · simpa [updateLayer] using addToHistory_history s _
    · simpa [updateLayer] using addToHistory_historyIndex s _
  | addEl layerId e histId ts =>
    simp only [applyMutation, addElementToLayer] at hok
    rcases hfind : s.layers.find? (fun layer => layer.id = layerId) with _ | target
    · rw [hfind] at hok; cases hok
    · rw [hfind] at hok
      by_cases hlock : target.locked = true
      · simp only [hlock, if_true] at hok
        cases hok
      · simp only [hlock, Bool.false_eq_true, if_false, Except.ok.injEq] at hok
        subst hok
        refine ⟨_, ?_, ?_, rfl⟩
        · simpa using addToHistory_history s _
        · simpa using addToHistory_historyIndex s _

/-- A successful mutating operation preserves the editor-state invariant. -/
lemma wellFormed_commit {s : EditorState} {m : Mutation} {t : EditorState}
    (hwf : WellFormed s) (hok : applyMutation s m = .ok t) : WellFormed t := by
  obtain ⟨h1, h2, _⟩ := hwf
  obtain ⟨L, ht, hidx, hl⟩ := applyMutation_ok_shape s m t hok
  refine ⟨?_, ?_, ?_⟩
  · rw [ht, hidx]; simp
  · rw [ht]
    have := committedBase_length_le s h1 h2
    simp only [List.length_append, List.length_cons, List.length_nil]
    omega
  · rw [ht, hidx, hl, List.getElem?_concat_length]
    rfl

/-- Operation `undo` preserves the editor-state invariant. -/
lemma wellFormed_undo {s : EditorState} (hwf : WellFormed s) :
    WellFormed (undo s) := by
  obtain ⟨h1, h2, h3⟩ := hwf
  by_cases h0 : s.historyIndex = 0
  · have hu : undo s = s := by simp [undo, h0]
    rw [hu]; exact ⟨h1, h2, h3⟩
  · rcases hget : s.history[s.historyIndex - 1]? with _ | entry
    · have hu : undo s = s := by simp [undo, h0, hget]
      rw [hu]; exact ⟨h1, h2, h3⟩
    · have hu : undo s =
          { s with
            layers := entry.layers
            historyIndex := s.historyIndex - 1
            isDirty := true } := by
        simp [undo, h0, hget]
      rw [hu]
      refine ⟨?_, h2, ?_⟩
      · show s.historyIndex - 1 < s.history.length
        omega
      · show (s.history[s.historyIndex - 1]?).map EditorHistory.layers =
          some entry.layers
        rw [hget]
        rfl

/-- Operation `redo` preserves the editor-state invariant. -/
lemma wellFormed_redo {s : EditorState} (hwf : WellFormed s) :
    WellFormed (redo s) := by
  obtain ⟨h1, h2, h3⟩ := hwf
  by_cases h0 : s.historyIndex ≥ s.history.length - 1
  · have hu : redo s = s := by simp [redo, h0]
    rw [hu]; exact ⟨h1, h2, h3⟩
  · rcases hget : s.history[s.historyIndex + 1]? with _ | entry
    · have hu : redo s = s := by simp [redo, h0, hget]
      rw [hu]; exact ⟨h1, h2, h3⟩
    · have hu : redo s =
          { s with
            layers := entry.layers
            historyIndex := s.historyIndex + 1
            isDirty := true } := by
        simp [redo, h0, hget]
      rw [hu]
      refine ⟨?_, h2, ?_⟩
      · show s.historyIndex + 1 < s.history.length
        omega
      · show (s.history[s.historyIndex + 1]?).map EditorHistory.layers =
          some entry.layers
        rw [hget]
        rfl

/-- The initial editor state satisfies the invariant. -/
lemma wellFormed_init (uri : String) (dims : EditorDimensions)
    (histId : String) (ts : ℕ) :
    WellFormed (createInitialState uri dims histId ts) := by
  refine ⟨by simp [createInitialState], by simp [createInitialState], ?_⟩
  simp [createInitialState]

/-- Every reachable editor state satisfies the invariant. -/
lemma reachable_wellFormed {s : EditorState} (h : Reachable s) : WellFormed s := by
  induction h with
  | init uri dims histId ts => exact wellFormed_init uri dims histId ts
  | add h name layerId histId ts ih =>
    exact wellFormed_commit ih (m := .addL name layerId histId ts) rfl
  | remove h layerId histId ts hok ih =>
    exact wellFormed_commit ih (m := .removeL layerId histId ts) hok
  | update h layerId u histId ts ih =>
    exact wellFormed_commit ih (m := .updateL layerId u histId ts) rfl
  | addElem h layerId e histId ts hok ih =>
    exact wellFormed_commit ih (m := .addEl layerId e histId ts) hok
  | undoStep h ih => exact wellFormed_undo ih
  | redoStep h ih => exact wellFormed_redo ih

/-! ## Claim C1: layers always equal the snapshot at the history cursor -/

/-- C1: for every editor state reachable from `createInitialState` by any
sequence of `addLayer`, `removeLayer`, `updateLayer`, `addElementToLayer`,
`undo` and `redo`, the state's `layers` list equals the layer snapshot stored
in the history entry at position `historyIndex`. -/
theorem layers_eq_history_snapshot {s : EditorState} (h : Reachable s) :
    (s.history[s.historyIndex]?).map EditorHistory.layers = some s.layers :=
  (reachable_wellFormed h).2.2

/-- A concrete editor state: freshly initialised. -/
def exInit : EditorState := createInitialState "file://img.png" ⟨100, 100⟩ "h0" 0

/-- A concrete editor state: one layer added to `exInit`. -/
def exAdd : EditorState := addLayer exInit none "L1" "h1" 1

/-- Witness for C1 at the concrete state reached by one `addLayer`. -/
theorem layers_eq_history_snapshot_witness :
    Reachable exAdd ∧
    ((exAdd.history[exAdd.historyIndex]?).map EditorHistory.layers =
      some exAdd.layers) :=
  ⟨Reachable.add (Reachable.init "file://img.png" ⟨100, 100⟩ "h0" 0) none "L1" "h1" 1,
   layers_eq_history_snapshot
     (Reachable.add (Reachable.init "file://img.png" ⟨100, 100⟩ "h0" 0) none "L1" "h1" 1)⟩

/-! ## Claim C2: undo/redo round trip around addLayer -/

/-- C2: from any editor state satisfying the history invariant, `addLayer`
followed by `undo` restores the exact layer list, and from the post-add
state, `undo` followed by `redo` restores the post-add layer list. -/
theorem addLayer_undo_redo (s : EditorState) (hwf : WellFormed s)
    (name : Option String) (layerId histId : String) (ts : ℕ) :
    (undo (addLayer s name layerId histId ts)).layers = s.layers ∧
    (redo (undo (addLayer s name layerId histId ts))).layers =
      (addLayer s name layerId histId ts).layers := by
  obtain ⟨h1, h2, h3⟩ := hwf
  obtain ⟨L, ht, hidx, hlay⟩ :=
    applyMutation_ok_shape s (.addL name layerId histId ts)
      (addLayer s name layerId histId ts) rfl
  simp only [Mutation.histId, Mutation.ts] at ht
  have hcbpos : 0 < (committedBase s).length := committedBase_pos s h1
  -- the entry below the cursor of the post-add state is the old snapshot
  rcases hE : s.history[s.historyIndex]? with _ | E
  · rw [hE] at h3; cases h3
  · have hEl : E.layers = s.layers := by
      rw [hE] at h3
      simpa using h3
    have hbelow : (addLayer s name layerId histId ts).history[
        (addLayer s name layerId histId ts).historyIndex - 1]? = some E := by
      rw [ht, hidx, List.getElem?_append]
      rw [if_pos (by omega), committedBase_last s h1, hE]
    have hne0 : ¬((addLayer s name layerId histId ts).historyIndex = 0) := by
      rw [hidx]; omega
    have hu : undo (addLayer s name layerId histId ts) =
        { addLayer s name layerId histId ts with
          layers := E.layers
          historyIndex := (addLayer s name layerId histId ts).historyIndex - 1
          isDirty := true } := by
      simp [undo, hne0, hbelow]
    constructor
    · rw [hu, hEl]
    · -- redo climbs back onto the committed entry
      have hlen : (addLayer s name layerId histId ts).history.length =
          (committedBase s).length + 1 := by
        rw [ht]; simp
      have hguard : ¬((addLayer s name layerId histId ts).historyIndex - 1 ≥
          (addLayer s name layerId histId ts).history.length - 1) := by
        rw [hidx, hlen]; omega
      have htop : (addLayer s name layerId histId ts).history[
          ((addLayer s name layerId histId ts).historyIndex - 1) + 1]? =
          some ⟨histId, ts, L⟩ := by
        have hplus : ((addLayer s name layerId histId ts).historyIndex - 1) + 1 =
            (committedBase s).length := by
          rw [hidx]; omega
        rw [hplus, ht, List.getElem?_concat_length]
      rw [hu]
      have hr : redo
          { addLayer s name layerId histId ts with
            layers := E.layers
            historyIndex := (addLayer s name layerId histId ts).historyIndex - 1
            isDirty := true } =
          { addLayer s name layerId histId ts with
            layers := L
            historyIndex := ((addLayer s name layerId histId ts).historyIndex - 1) + 1
            isDirty := true } := by
        simp only [redo]
        rw [if_neg (by simpa using hguard)]
        rw [show ({ addLayer s name layerId histId ts with
            layers := E.layers
            historyIndex := (addLayer s name layerId histId ts).historyIndex - 1
            isDirty := true } : EditorState).history[
              (addLayer s name layerId histId ts).historyIndex - 1 + 1]? =
            some ⟨histId, ts, L⟩ from htop]
      rw [hr, hlay]

/-- Witness for C2 at the concrete initial state. -/
theorem addLayer_undo_redo_witness :
    WellFormed exInit ∧
    ((undo (addLayer exInit none "L1" "h1" 1)).layers = exInit.layers ∧
     (redo (undo (addLayer exInit none "L1" "h1" 1))).layers =
       (addLayer exInit none "L1" "h1" 1).layers) :=
  ⟨by decide, addLayer_undo_redo exInit (by decide) none "L1" "h1" 1⟩

/-! ## Claim C3: the 50-entry history cap -/

lemma lastN_suffix (n : ℕ) (l : List α) : lastN n l <:+ l :=
  List.drop_suffix _ _

lemma lastN_length (n : ℕ) (l : List α) : (lastN n l).length = min n l.length := by
  simp only [lastN, List.length_drop]
  omega

lemma suffix_eq_of_length {l s1 s2 : List α} (h1 : s1 <:+ l) (h2 : s2 <:+ l)
    (h : s1.length = s2.length) : s1 = s2 := by
  rw [List.suffix_iff_eq_drop.mp h1, List.suffix_iff_eq_drop.mp h2, h]

lemma lastN_of_length_le {n : ℕ} {l : List α} (h : l.length ≤ n) :
    lastN n l = l := by
  simp only [lastN, Nat.sub_eq_zero_of_le h, List.drop_zero]

lemma lastN_append_of_le {n : ℕ} (xs : List α) {ys : List α}
    (h : n ≤ ys.length) : lastN n (xs ++ ys) = lastN n ys := by
  refine suffix_eq_of_length (lastN_suffix _ _)
    ((lastN_suffix n ys).trans (List.suffix_append xs ys)) ?_
  rw [lastN_length, lastN_length, List.length_append]
  omega

lemma lastN_lastN_append (n : ℕ) (xs ys : List α) :
    lastN n (lastN n xs ++ ys) = lastN n (xs ++ ys) := by
  have hsub : lastN n xs ++ ys <:+ xs ++ ys := by
    obtain ⟨u, hu⟩ := lastN_suffix n xs
    exact ⟨u, by rw [← List.append_assoc, hu]⟩
  refine suffix_eq_of_length ((lastN_suffix _ _).trans hsub)
    (lastN_suffix _ _) ?_
  rw [lastN_length, lastN_length, List.length_append, List.length_append,
    lastN_length]
  omega

/-- One successful mutating operation on a state whose cursor sits on the
last entry: the history ids become the last 50 of the old ids plus the new
entry's id, and the cursor stays on the last entry. -/
lemma commit_step_atEnd {s : EditorState} {m : Mutation} {t : EditorState}
    (hok : applyMutation s m = .ok t)
    (hpos : 0 < s.history.length)
    (hend : s.historyIndex = s.history.length - 1)
    (h50 : s.history.length ≤ 50) :
    t.history.map EditorHistory.id =
      lastN 50 (s.history.map EditorHistory.id ++ [m.histId]) ∧
    0 < t.history.length ∧
    t.historyIndex = t.history.length - 1 ∧
    t.history.length ≤ 50 := by
  have h1 : s.historyIndex < s.history.length := by omega
  obtain ⟨L, ht, hidx, _⟩ := applyMutation_ok_shape s m t hok
  have hbase : s.history.take (s.historyIndex + 1) = s.history :=
    List.take_of_length_le (by omega)
  have hcb : committedBase s =
      if 50 < s.history.length + 1 then s.history.drop 1 else s.history := by
    unfold committedBase
    rw [hbase]
  have hlen : t.history.length = (committedBase s).length + 1 := by
    rw [ht]; simp
  refine ⟨?_, ?_, ?_, ?_⟩
  · rw [ht, hcb]
    by_cases hfull : 50 < s.history.length + 1
    · rw [if_pos hfull]
      have hlen50 : s.history.length = 50 := by omega
      have hdrop : lastN 50 (s.history.map EditorHistory.id ++ [m.histId]) =
          (s.history.map EditorHistory.id).drop 1 ++ [m.histId] := by
        unfold lastN
        have hc : (s.history.map EditorHistory.id ++ [m.histId]).length - 50 = 1 := by
          simp [hlen50]
        rw [hc, List.drop_append_of_le_length (by simp [hlen50])]
      rw [hdrop]
      simp
    · rw [if_neg hfull, lastN_of_length_le (by simp; omega)]
      simp
  · rw [hlen]; omega
  · rw [hidx, hlen]
    omega
  · rw [hlen]
    have := committedBase_length_le s h1 h50
    omega

/-- Running mutating operations from a cursor-at-end state keeps the last 50
committed ids. -/
lemma runMutations_atEnd (ms : List Mutation) :
    ∀ (s t : EditorState), runMutations s ms = .ok t →
    0 < s.history.length → s.historyIndex = s.history.length - 1 →
    s.history.length ≤ 50 →
    t.history.map EditorHistory.id =
      lastN 50 (s.history.map EditorHistory.id ++ ms.map Mutation.histId) ∧
    0 < t.history.length ∧
    t.historyIndex = t.history.length - 1 ∧
    t.history.length ≤ 50 := by
  induction ms with
  | nil =>
    intro s t hrun hpos hend h50
    simp only [runMutations, List.foldlM_nil] at hrun
    cases hrun
    refine ⟨?_, hpos, hend, h50⟩
    rw [List.map_nil, List.append_nil, lastN_of_length_le (by simpa using h50)]
  | cons m rest ih =>
    intro s t hrun hpos hend h50
    rw [runMutations, List.foldlM_cons] at hrun
    cases hstep : applyMutation s m with
    | error e => rw [hstep] at hrun; cases hrun
    | ok s1 =>
      rw [hstep] at hrun
      have hrest : runMutations s1 rest = .ok t := hrun
      obtain ⟨hids1, hpos1, hend1, h501⟩ := commit_step_atEnd hstep hpos hend h50
      obtain ⟨hids2, hpos2, hend2, h502⟩ := ih s1 t hrest hpos1 hend1 h501
      refine ⟨?_, hpos2, hend2, h502⟩
      rw [hids2, hids1, lastN_lastN_append, List.append_assoc]
      simp

/-- C3: performing 60 sequential mutating operations (each committing one
history entry) on a well-formed editor state with history cap 50 leaves the
history with exactly 50 entries — the entries committed by operations 11
through 60, i.e. the oldest 10 of the 60 committed entries (together with all
pre-existing entries) are evicted — and `historyIndex` points at the newest
entry (`historyIndex = history.length - 1 = 49`). -/
theorem sixty_mutations_history_cap (s : EditorState) (ms : List Mutation)
    (t : EditorState) (hwf : WellFormed s) (hlen : ms.length = 60)
    (hrun : runMutations s ms = .ok t) :
    t.history.length = 50 ∧ t.historyIndex = 49 ∧
    t.history.map EditorHistory.id = (ms.map Mutation.histId).drop 10 := by
  obtain ⟨h1, h2, _⟩ := hwf
  cases ms with
  | nil => cases hlen
  | cons m rest =>
    rw [runMutations, List.foldlM_cons] at hrun
    cases hstep : applyMutation s m with
    | error e => rw [hstep] at hrun; cases hrun
    | ok s1 =>
      rw [hstep] at hrun
      have hrest : runMutations s1 rest = .ok t := hrun
      obtain ⟨L, ht, hidx, _⟩ := applyMutation_ok_shape s m s1 hstep
      have hlen1 : s1.history.length = (committedBase s).length + 1 := by
        rw [ht]; simp
      have hcble := committedBase_length_le s h1 h2
      obtain ⟨hids, hpos2, hend2, h502⟩ := runMutations_atEnd rest s1 t hrest
        (by omega) (by rw [hidx, hlen1]; omega) (by omega)
      have hr59 : rest.length = 59 := by
        simp only [List.length_cons] at hlen
        omega
      have hs1ids : s1.history.map EditorHistory.id =
          (committedBase s).map EditorHistory.id ++ [m.histId] := by
        rw [ht]; simp
      have hmslen : (rest.map Mutation.histId).length = 59 := by
        simp only [List.length_map, hr59]
      have h910 : ((m :: rest).map Mutation.histId).drop 10 =
          (rest.map Mutation.histId).drop 9 := by
        rw [List.map_cons]
        rfl
      have hfinal : t.history.map EditorHistory.id =
          ((m :: rest).map Mutation.histId).drop 10 := by
        rw [hids, hs1ids, lastN_append_of_le _ (by rw [hmslen]; omega), h910]
        unfold lastN
        rw [hmslen]
      have hlent : t.history.length = 50 := by
        have h := congrArg List.length hfinal
        simp only [List.length_map, List.length_drop, List.length_cons,
          hr59] at h
        omega
      exact ⟨hlent, by omega, hfinal⟩

/-- Sixty concrete `addLayer` operations. -/
def exC3ops : List Mutation :=
  (List.range 60).map (fun k =>
    Mutation.addL none ("L" ++ toString k) ("h" ++ toString k) k)

/-- Witness for C3: sixty `addLayer` operations from the initial state. -/
theorem sixty_mutations_history_cap_witness :
    WellFormed exInit ∧ exC3ops.length = 60 ∧
    (runMutations exInit exC3ops).map
      (fun t => (t.history.length, t.historyIndex,
        t.history.map EditorHistory.id)) =
      .ok (50, 49, (exC3ops.map Mutation.histId).drop 10) := by
  refine ⟨by decide, by decide, ?_⟩
  have hok : (runMutations exInit exC3ops).isOk = true := by decide
  cases hrun : runMutations exInit exC3ops with
  | error e => rw [hrun] at hok; cases hok
  | ok t =>
    obtain ⟨hl, hi, hids⟩ := sixty_mutations_history_cap exInit exC3ops t
      (by decide) (by decide) hrun
    simp [Except.map, hl, hi, hids]

/-! ## Claim C4: removeLayer on a single-layer state -/

/-- C4: on a state with exactly one layer, `removeLayer` throws an error with
code `VALIDATION_ERROR`.  In this embedding a thrown error means no new state
is produced, so `layers`, `history`, `historyIndex` and `isDirty` are
untouched: the caller keeps the unmodified input state. -/
theorem removeLayer_single_layer_fails (s : EditorState)
    (layerId histId : String) (ts : ℕ) (h : s.layers.length = 1) :
    removeLayer s layerId histId ts =
      .error (.imageError (createError "Cannot remove the last layer"
        .VALIDATION_ERROR (some "removeLayer"))) := by
  unfold removeLayer
  rw [if_pos (by omega)]

/-- Witness for C4 at the concrete single-layer initial state. -/
theorem removeLayer_single_layer_fails_witness :
    exInit.layers.length = 1 ∧
    removeLayer exInit "background" "h1" 1 =
      .error (.imageError (createError "Cannot remove the last layer"
        .VALIDATION_ERROR (some "removeLayer"))) :=
  ⟨by decide, removeLayer_single_layer_fails exInit "background" "h1" 1 (by decide)⟩

/-! ## Claim C5: fitToSize bounds, aspect ratio, width-first order -/

/-- JS `Math.round` is monotone below an integer bound. -/
lemma jsRound_le_int {x : ℚ} {n : ℤ} (h : x ≤ (n : ℚ)) : jsRound x ≤ n := by
  unfold jsRound
  have h3 : ⌊x + 1 / 2⌋ ≤ ⌊(n : ℚ) + 1 / 2⌋ := Int.floor_le_floor (by linarith)
  have h4 : ⌊(n : ℚ) + 1 / 2⌋ = n := by
    rw [add_comm, Int.floor_add_int]
    norm_num
  omega

/-- Counterexample to C5 as stated: at positive inputs
`(w, h, maxW, maxH) = (10, 10, 28/5, 100)` the source's `fitToSize` returns
width 6, which exceeds `maxW = 28/5`.  (The bound only holds for integer
`maxW`, `maxH`.) -/
theorem fitToSize_fractional_bound_cex :
    (0 : ℚ) < 10 ∧ (0 : ℚ) < 28 / 5 ∧ (0 : ℚ) < 100 ∧
    fitToSize 10 10 (28 / 5) 100 = (6, 6) ∧
    ¬(((fitToSize 10 10 (28 / 5) 100).1 : ℚ) ≤ 28 / 5) := by
  have hfit : fitToSize 10 10 (28 / 5) 100 = (6, 6) := by
    unfold fitToSize getAspectRatio jsRound
    norm_num
  refine ⟨by norm_num, by norm_num, by norm_num, hfit, ?_⟩
  rw [hfit]
  norm_num

/-- C5 (amended: the bounds `maxW`, `maxH` are positive integers — for
fractional bounds rounding can exceed them, see the counterexample): for all
positive `w, h` the source's `fitToSize` equals the spec's width-first
fit-to-box description, its result respects both bounds, and it is the
rounding of an exact pair `(nw, nh)` preserving the aspect ratio
(`nw * h = w * nh`, i.e. `nw / nh = w / h`) and respecting both bounds. -/
theorem fitToSize_bounds_aspect (w h : ℚ) (maxW maxH : ℤ)
    (hw : 0 < w) (hh : 0 < h) (hmw : 0 < maxW) (hmh : 0 < maxH) :
    fitToSize w h (maxW : ℚ) (maxH : ℚ) = fitToSizeSpec w h (maxW : ℚ) (maxH : ℚ) ∧
    (fitToSize w h (maxW : ℚ) (maxH : ℚ)).1 ≤ maxW ∧
    (fitToSize w h (maxW : ℚ) (maxH : ℚ)).2 ≤ maxH ∧
    ∃ nw nh : ℚ, 0 < nw ∧ 0 < nh ∧ nw * h = w * nh ∧
      nw ≤ (maxW : ℚ) ∧ nh ≤ (maxH : ℚ) ∧
      fitToSize w h (maxW : ℚ) (maxH : ℚ) = (jsRound nw, jsRound nh) := by
  have hmwq : (0 : ℚ) < (maxW : ℚ) := by exact_mod_cast hmw
  have hmhq : (0 : ℚ) < (maxH : ℚ) := by exact_mod_cast hmh
  have hmain : ∃ nw nh : ℚ, 0 < nw ∧ 0 < nh ∧ nw * h = w * nh ∧
      nw ≤ (maxW : ℚ) ∧ nh ≤ (maxH : ℚ) ∧
      fitToSize w h (maxW : ℚ) (maxH : ℚ) = (jsRound nw, jsRound nh) := by
    simp only [fitToSize, getAspectRatio]
    by_cases hc1 : w > (maxW : ℚ)
    · simp only [if_pos hc1]
      by_cases hc2 : (maxW : ℚ) / (w / h) > (maxH : ℚ)
      · simp only [if_pos hc2]
        refine ⟨(maxH : ℚ) * (w / h), (maxH : ℚ), by positivity, hmhq, ?_, ?_,
          le_refl _, rfl⟩
        · field_simp
          ring
        · -- from maxW / (w/h) > maxH : maxH * (w/h) < maxW
          have hA : 0 < w / h := by positivity
          have h5 : (maxH : ℚ) * (w / h) < (maxW : ℚ) := (lt_div_iff₀ hA).mp hc2
          linarith
      · simp only [if_neg hc2]
        refine ⟨(maxW : ℚ), (maxW : ℚ) / (w / h), hmwq, by positivity, ?_,
          le_refl _, not_lt.mp hc2, rfl⟩
        field_simp
    · simp only [if_neg hc1]
      by_cases hc2 : h > (maxH : ℚ)
      · simp only [if_pos hc2]
        refine ⟨(maxH : ℚ) * (w / h), (maxH : ℚ), by positivity, hmhq, ?_, ?_,
          le_refl _, rfl⟩
        · field_simp
          ring
        · -- maxH < h and w ≤ maxW give maxH * (w/h) < maxW
          have h6 : (maxH : ℚ) * w / h < w := by
            rw [div_lt_iff₀ hh]
            calc (maxH : ℚ) * w < h * w := mul_lt_mul_of_pos_right hc2 hw
              _ = w * h := by ring
          have h7 : (maxH : ℚ) * (w / h) = (maxH : ℚ) * w / h := by ring
          linarith [not_lt.mp hc1]
      · simp only [if_neg hc2]
        exact ⟨w, h, hw, hh, by ring, not_lt.mp hc1, not_lt.mp hc2, rfl⟩
  obtain ⟨nw, nh, hnw, hnh, hratio, hbw, hbh, heq⟩ := hmain
  refine ⟨rfl, ?_, ?_, nw, nh, hnw, hnh, hratio, hbw, hbh, heq⟩
  · rw [heq]; exact jsRound_le_int hbw
  · rw [heq]; exact jsRound_le_int hbh

/-- Witness for C5 at `(w, h, maxW, maxH) = (1920, 1080, 400, 400)`. -/
theorem fitToSize_bounds_aspect_witness :
    ((0 : ℚ) < 1920 ∧ (0 : ℚ) < 1080 ∧ (0 : ℤ) < 400) ∧
    (fitToSize 1920 1080 ((400 : ℤ) : ℚ) ((400 : ℤ) : ℚ) =
        fitToSizeSpec 1920 1080 ((400 : ℤ) : ℚ) ((400 : ℤ) : ℚ) ∧
      (fitToSize 1920 1080 ((400 : ℤ) : ℚ) ((400 : ℤ) : ℚ)).1 ≤ (400 : ℤ) ∧
      (fitToSize 1920 1080 ((400 : ℤ) : ℚ) ((400 : ℤ) : ℚ)).2 ≤ (400 : ℤ) ∧
      ∃ nw nh : ℚ, 0 < nw ∧ 0 < nh ∧ nw * 1080 = 1920 * nh ∧
        nw ≤ ((400 : ℤ) : ℚ) ∧ nh ≤ ((400 : ℤ) : ℚ) ∧
        fitToSize 1920 1080 ((400 : ℤ) : ℚ) ((400 : ℤ) : ℚ) =
          (jsRound nw, jsRound nh)) :=
  ⟨⟨by norm_num, by norm_num, by norm_num⟩,
   fitToSize_bounds_aspect 1920 1080 400 400 (by norm_num) (by norm_num)
     (by norm_num) (by norm_num)⟩

/-! ## Claim C6: resizeToFit never consults the image's own dimensions -/

/-- C6 (code bug): both `resizeToFit` implementations compute the dimensions
passed to `resize` as `fitToSize(maxWidth, maxHeight, maxWidth, maxHeight)` —
a no-op returning the rounded bounds — instead of fitting the dimensions of
the image being resized.  At bounds `100 × 100` the code resizes every image
to exactly `100 × 100`, while the claimed fit of a `1000 × 500` image is
`100 × 50`. -/
theorem resizeToFit_ignores_image_dims :
    resizeToFitDims 100 100 = (100, 100) ∧
    fitToSize 1000 500 100 100 = (100, 50) ∧
    ((100, 100) : ℤ × ℤ) ≠ (100, 50) := by
  refine ⟨?_, ?_, by decide⟩
  · unfold resizeToFitDims fitToSize getAspectRatio jsRound
    norm_num
  · unfold fitToSize getAspectRatio jsRound
    norm_num

/-! ## Claim C7: the contrast factor -/

/-- C7 (code bug): the source computes the contrast factor with
`contrast * 255` where the spec's standard formula uses `contrast * 2.55`
(the sibling `applyBrightness` converts the same `-100..100` slider range
with `* 2.55`).  At `contrast = 50` the code's factor is negative
(`-13209/12491`), so channel value 200 maps to byte 52, while the claim's
formula maps it to 255. -/
theorem applyContrast_factor_mismatch :
    applyContrast [200, 200, 200, 255] 50 = [52, 52, 52, 255] ∧
    contrastSpecChannel 50 200 = 255 := by
  constructor
  · simp only [applyContrast, mapWithIndex]
    norm_num [toClampedByte, roundHalfEven]
    rfl
  · unfold contrastSpecChannel
    norm_num

/-! ## Claim C8: box blur -/

/-- The byte stored for the rational mean `s / n` (channel sum `s`, neighbor
count `n`), expressed in natural-number arithmetic (division by a zero count
gives JS `NaN`, stored as byte 0, matching `ℚ`'s `s / 0 = 0`). -/
def clampedMeanNat (s n : ℕ) : ℕ :=
  if n = 0 then 0
  else
    min 255 (if 2 * (s % n) < n then s / n
      else if n < 2 * (s % n) then s / n + 1
      else if (s / n) % 2 = 0 then s / n else s / n + 1)

lemma toClampedByte_div_aux (n q r s : ℕ) (hn0 : 0 < n) (hrn : r < n)
    (hs : s = n * q + r) :
    toClampedByte ((s : ℚ) / (n : ℚ)) =
      min 255 (if 2 * r < n then q else if n < 2 * r then q + 1
        else if q % 2 = 0 then q else q + 1) := by
  have hnq : (0 : ℚ) < (n : ℚ) := by exact_mod_cast hn0
  have hx0 : (0 : ℚ) ≤ (s : ℚ) / (n : ℚ) := by positivity
  have hcast : (s : ℚ) = (n : ℚ) * (q : ℚ) + (r : ℚ) := by exact_mod_cast hs
  have hxval : (s : ℚ) / (n : ℚ) = ((q : ℤ) : ℚ) + (r : ℚ) / (n : ℚ) := by
    field_simp
    linear_combination hcast
  have hfl : ⌊(s : ℚ) / (n : ℚ)⌋ = (q : ℤ) := by
    rw [hxval, Int.floor_int_add]
    have h0 : ⌊(r : ℚ) / (n : ℚ)⌋ = 0 := by
      rw [Int.floor_eq_zero_iff]
      constructor
      · positivity
      · rw [div_lt_one hnq]
        exact_mod_cast hrn
    rw [h0, add_zero]
  have hfr : (s : ℚ) / (n : ℚ) - ((q : ℤ) : ℚ) = (r : ℚ) / (n : ℚ) := by
    rw [hxval]; ring
  unfold toClampedByte roundHalfEven
  rw [max_eq_right hx0]
  by_cases hbig : (255 : ℚ) < (s : ℚ) / (n : ℚ)
  · rw [min_eq_left hbig.le]
    have h255 : 255 * n < s := by exact_mod_cast (lt_div_iff₀ hnq).mp hbig
    have hq255 : 255 ≤ q := by
      have h1 : n * 255 < n * (q + 1) := by nlinarith
      have h2 := Nat.lt_of_mul_lt_mul_left h1
      omega
    have hbr : 255 ≤ (if 2 * r < n then q else if n < 2 * r then q + 1
        else if q % 2 = 0 then q else q + 1) := by
      split_ifs <;> omega
    rw [min_eq_left hbr]
    norm_num
    rfl
  · have hxle : (s : ℚ) / (n : ℚ) ≤ 255 := not_lt.mp hbig
    rw [min_eq_right hxle]
    have hs255 : s ≤ 255 * n := by exact_mod_cast (div_le_iff₀ hnq).mp hxle
    have hqle : q ≤ 255 := by
      have h1 : n * q ≤ n * 255 := by nlinarith
      exact Nat.le_of_mul_le_mul_left h1 hn0
    rw [hfl, hfr]
    by_cases hc1 : 2 * r < n
    · have hq1 : (r : ℚ) / (n : ℚ) < 1 / 2 := by
        rw [div_lt_div_iff₀ hnq (by norm_num : (0 : ℚ) < 2)]
        exact_mod_cast (by omega : r * 2 < 1 * n)
      rw [if_pos hq1, if_pos hc1]
      omega
    · by_cases hc2 : n < 2 * r
      · have hq2 : 1 / 2 < (r : ℚ) / (n : ℚ) := by
          rw [div_lt_div_iff₀ (by norm_num : (0 : ℚ) < 2) hnq]
          exact_mod_cast (by omega : 1 * n < r * 2)
        have hqpl : q + 1 ≤ 255 := by
          rcases Nat.lt_or_ge q 255 with hlt | hge
          · omega
          · exfalso
            have hq255 : q = 255 := by omega
            rw [hq255] at hs
            omega
        rw [if_neg (not_lt.mpr hq2.le), if_pos hq2, if_neg hc1, if_pos hc2]
        omega
      · have heq : 2 * r = n := by omega
        have hqv : (r : ℚ) / (n : ℚ) = 1 / 2 := by
          rw [div_eq_div_iff (ne_of_gt hnq) (by norm_num : (2 : ℚ) ≠ 0)]
          exact_mod_cast (by omega : r * 2 = 1 * n)
        rw [if_neg (by rw [hqv]; norm_num), if_neg (by rw [hqv]; norm_num),
          if_neg hc1, if_neg hc2]
        have hpar : ((q : ℤ) % 2 = 0) ↔ (q % 2 = 0) := by omega
        by_cases hp : q % 2 = 0
        · rw [if_pos (hpar.mpr hp), if_pos hp]
          omega
        · have hqpl : q + 1 ≤ 255 := by
            rcases Nat.lt_or_ge q 255 with hlt | hge
            · omega
            · exfalso
              have hq255 : q = 255 := by omega
              rw [hq255] at hs
              omega
          rw [if_neg (fun hc => hp (hpar.mp hc)), if_neg hp]
          omega

/-- Function `boxBlurCore` with every byte store rewritten to natural-number
arithmetic via `toClampedByte_natDiv` (used to evaluate concrete buffers). -/
def boxBlurCoreN (wdt hgt size : ℤ) (data : List ℕ) : List ℕ :=
  mapWithIndex (fun j v =>
    let p := j / 4
    let c := j % 4
    if (p : ℤ) < wdt * hgt then
      let x : ℤ := (p : ℤ) % wdt
      let y : ℤ := (p : ℤ) / wdt
      let ns := blurNeighbors wdt hgt size x y
      let s : ℕ := (ns.map (fun q =>
        data.getD ((q.2 * wdt + q.1) * 4 + (c : ℤ)).toNat 0)).sum
      clampedMeanNat s ns.length
    else v) 0 data

lemma toClampedByte_natDiv (s n : ℕ) :
    toClampedByte ((s : ℚ) / (n : ℚ)) = clampedMeanNat s n := by
  by_cases hn : n = 0
  · subst hn
    norm_num [clampedMeanNat, toClampedByte, roundHalfEven]
  · have hn0 : 0 < n := Nat.pos_of_ne_zero hn
    rw [toClampedByte_div_aux n (s / n) (s % n) s hn0 (Nat.mod_lt _ hn0)
      (Nat.div_add_mod s n).symm]
    unfold clampedMeanNat
    rw [if_neg hn]

lemma boxBlurCore_eq_natEval (wdt hgt size : ℤ) (data : List ℕ) :
    boxBlurCore wdt hgt size data = boxBlurCoreN wdt hgt size data := by
  unfold boxBlurCore boxBlurCoreN
  congr 1
  funext j v
  dsimp only
  by_cases hp : ((j / 4 : ℕ) : ℤ) < wdt * hgt
  · rw [if_pos hp, if_pos hp, toClampedByte_natDiv]
  · rw [if_neg hp, if_neg hp]

/-- A concrete four-pixel RGBA buffer (three black pixels, one white). -/
def exBlurData : List ℕ :=
  [0, 0, 0, 0, 0, 0, 0, 0, 0, 0, 0, 0, 255, 255, 255, 255]

/-- Counterexample to C8 as stated: `applyBlur` takes no width/height and
derives `width = height = √(length/4)`, so on this 16-byte buffer read as a
`4 × 1` image (radius 1) its output is not the claimed per-shape window mean:
the code averages the buffer as a `2 × 2` square instead. -/
theorem applyBlur_nonsquare_cex :
    exBlurData.length = 4 * (4 * 1) ∧
    applyBlur exBlurData 1 ≠ blurSpec 4 1 exBlurData 1 := by
  constructor
  · decide
  · have hsq : Nat.sqrt (exBlurData.length / 4) = 2 := by
      rw [show exBlurData.length / 4 = 2 * 2 from by decide]
      exact Nat.sqrt_eq 2
    have h1 : applyBlur exBlurData 1 = boxBlurCore 2 2 1 exBlurData := by
      simp only [applyBlur, hsq]
      norm_num
    have h2 : blurSpec 4 1 exBlurData 1 = boxBlurCore 4 1 1 exBlurData := by
      simp only [blurSpec]
      norm_num
    rw [h1, h2, boxBlurCore_eq_natEval, boxBlurCore_eq_natEval]
    decide

/-- C8 (amended: restricted to square images, which is the only shape the
source can handle since it derives `width = height = √(length/4)` itself, and
to nonnegative radii — for a negative radius the code's
`Math.floor(radius) || 1` differs from `max(⌊radius⌋, 1)`): on a square
row-major RGBA buffer, box blur uses effective radius `max ⌊r⌋ 1` and sets
each output channel to the byte-stored unweighted mean of that channel over
the in-bounds pixels of the `(2s+1)×(2s+1)` window, out-of-bounds neighbors
excluded from both sum and count. -/
theorem applyBlur_square_spec (w : ℕ) (data : List ℕ) (r : ℚ)
    (hlen : data.length = 4 * (w * w)) (hr : 0 ≤ r) :
    applyBlur data r = blurSpec w w data r := by
  have hsqrt : Nat.sqrt (data.length / 4) = w := by
    rw [hlen, Nat.mul_div_cancel_left _ (by norm_num : 0 < 4), Nat.sqrt_eq]
  have hfl0 : 0 ≤ ⌊r⌋ := Int.floor_nonneg.mpr hr
  have hsize : (if ⌊r⌋ = 0 then 1 else ⌊r⌋) = max ⌊r⌋ 1 := by
    by_cases h : ⌊r⌋ = 0
    · rw [if_pos h, h]
      decide
    · rw [if_neg h, max_eq_left (by omega)]
  simp only [applyBlur, blurSpec, hsqrt, hsize]

/-- Witness for C8 (amended) on the concrete `2 × 2` buffer with radius 1. -/
theorem applyBlur_square_spec_witness :
    (exBlurData.length = 4 * (2 * 2) ∧ (0 : ℚ) ≤ 1) ∧
    applyBlur exBlurData 1 = blurSpec 2 2 exBlurData 1 :=
  ⟨⟨by decide, by norm_num⟩,
   applyBlur_square_spec 2 exBlurData 1 (by decide) (by norm_num)⟩

/-! ## Claims C9 and C10: the batch service -/

lemma chunked_flatten_aux (c : ℕ) (hc : c ≠ 0) :
    ∀ (n : ℕ) (l : List α), l.length ≤ n → (chunked c l).flatten = l := by
  intro n
  induction n with
  | zero =>
    intro l hl
    have hnil : l = [] := List.eq_nil_of_length_eq_zero (by omega)
    subst hnil
    simp [chunked]
  | succ n ih =>
    intro l hl
    cases l with
    | nil => simp [chunked]
    | cons x xs =>
      obtain ⟨d, rfl⟩ : ∃ d, c = d + 1 := ⟨c - 1, by omega⟩
      simp only [List.length_cons] at hl
      simp only [chunked, List.flatten_cons]
      rw [ih ((x :: xs).drop (d + 1))
        (by simp only [List.length_drop, List.length_cons]; omega)]
      exact List.take_append_drop _ _

/-- The chunking loop visits every operation exactly once, in order. -/
lemma chunked_flatten (c : ℕ) (hc : c ≠ 0) (l : List α) :
    (chunked c l).flatten = l :=
  chunked_flatten_aux c hc l.length l (le_refl _)

lemma chunked_map_flatten (c : ℕ) (hc : c ≠ 0) (f : α → β) (l : List α) :
    ((chunked c l).map (fun chunk => chunk.map f)).flatten = l.map f := by
  rw [← List.map_flatten, chunked_flatten c hc]

/-- The per-item results the batch loop settles, in operation order. -/
lemma processBatch_results (env : BatchEnv) (ops : List BatchOperation)
    (c : ℕ) :
    (processBatch env ops c).successful = ops.filterMap (fun op =>
        match processBatchItem env op with
        | .ok v => some (op.uri, v)
        | .error _ => none) ∧
    (processBatch env ops c).failed = ops.filterMap (fun op =>
        match processBatchItem env op with
        | .error e => some (op.uri, e)
        | .ok _ => none) ∧
    (processBatch env ops c).totalProcessed = ops.length ∧
    (processBatch env ops c).successCount =
      (processBatch env ops c).successful.length ∧
    (processBatch env ops c).failureCount =
      (processBatch env ops c).failed.length := by
  have hc : (if c = 0 then 3 else c) ≠ 0 := by
    by_cases h : c = 0 <;> simp [h]
  have hitems := chunked_map_flatten (if c = 0 then 3 else c) hc
    (fun op => (op.uri, processBatchItem env op)) ops
  constructor
  · simp only [processBatch, hitems, List.filterMap_map]
    rfl
  refine ⟨?_, rfl, rfl, rfl⟩
  simp only [processBatch, hitems, List.filterMap_map]
  rfl

lemma batch_partition_length (env : BatchEnv) (ops : List BatchOperation) :
    (ops.filterMap (fun op =>
        match processBatchItem env op with
        | .ok v => some (op.uri, v)
        | .error _ => none)).length +
    (ops.filterMap (fun op =>
        match processBatchItem env op with
        | .error e => some (op.uri, e)
        | .ok _ => none)).length = ops.length := by
  induction ops with
  | nil => rfl
  | cons op rest ih =>
    rw [List.filterMap_cons, List.filterMap_cons]
    cases h : processBatchItem env op with
    | ok v =>
      simp only [h, List.length_cons]
      omega
    | error e =>
      simp only [h, List.length_cons]
      omega

/-- C9: for every outcome of the delegated services (`env`), every operation
list and every concurrency, `processBatch` settles all items: `successful`
and `failed` partition the items in order by their individual outcome (so one
item's failure aborts neither its chunk nor the batch), and
`successCount + failureCount = totalProcessed = operations.length`. -/
theorem processBatch_settles (env : BatchEnv) (operations : List BatchOperation)
    (concurrency : ℕ) :
    (processBatch env operations concurrency).totalProcessed =
      operations.length ∧
    (processBatch env operations concurrency).successCount +
      (processBatch env operations concurrency).failureCount =
      (processBatch env operations concurrency).totalProcessed ∧
    (processBatch env operations concurrency).successful =
      operations.filterMap (fun op =>
        match processBatchItem env op with
        | .ok v => some (op.uri, v)
        | .error _ => none) ∧
    (processBatch env operations concurrency).failed =
      operations.filterMap (fun op =>
        match processBatchItem env op with
        | .error e => some (op.uri, e)
        | .ok _ => none) := by
  obtain ⟨hs, hf, ht, hsc, hfc⟩ := processBatch_results env operations concurrency
  refine ⟨ht, ?_, hs, hf⟩
  rw [hsc, hfc, hs, hf, ht]
  exact batch_partition_length env operations

/-- C10: a batch operation whose type is `'filter'` (a declared member of
the `BatchOperation` union) with a valid URI is failed with a
`VALIDATION_ERROR` by the dispatch's `default` branch: its outcome is the
same for every service-outcome function `env`, i.e. it is never forwarded to
any transform or conversion service, and `processBatch` records it in
`failed`. -/
theorem batch_filter_op_rejected (env : BatchEnv) (op : BatchOperation)
    (ops : List BatchOperation) (c : ℕ)
    (hty : op.type = .filter) (huri : (validateUri op.uri).isValid = true)
    (hmem : op ∈ ops) :
    processBatchItem env op = .error (unknownTypeError .filter) ∧
    (op.uri, unknownTypeError .filter) ∈ (processBatch env ops c).failed := by
  have hitem : processBatchItem env op = .error (unknownTypeError .filter) := by
    unfold processBatchItem
    rw [if_neg (by rw [huri]; simp), hty]
  refine ⟨hitem, ?_⟩
  obtain ⟨_, hf, _, _, _⟩ := processBatch_results env ops c
  rw [hf, List.mem_filterMap]
  exact ⟨op, hmem, by rw [hitem]⟩

/-- A concrete `'filter'`-typed batch operation with a valid URI. -/
def exBatchOp : BatchOperation := ⟨"file://img.png", .filter, 0, none⟩

/-- A concrete service-outcome function: every delegated call succeeds. -/
def exEnv : BatchEnv := fun _ => .ok ⟨"file://out.png", 1, 1, none⟩

/-- Witness for C10 on a one-element batch. -/
theorem batch_filter_op_rejected_witness :
    (exBatchOp.type = .filter ∧ (validateUri exBatchOp.uri).isValid = true ∧
      exBatchOp ∈ [exBatchOp]) ∧
    (processBatchItem exEnv exBatchOp = .error (unknownTypeError .filter) ∧
      (exBatchOp.uri, unknownTypeError .filter) ∈
        (processBatch exEnv [exBatchOp] 3).failed) :=
  ⟨⟨rfl, by decide, by simp⟩,
   batch_filter_op_rejected exEnv exBatchOp [exBatchOp] 3 rfl (by decide)
     (by simp)⟩

end RNImage
